import Mathlib

/-!
Verification of the adcli enrollment engine (`library/adenroll.c`).

The definitions below are a shallow embedding of the C source: each Lean
definition is translated from the function of the same name in
`library/adenroll.c`.  Helpers that live outside the provided sources
(`adkrb5.c`, `adutil.c`, `adldap.c`) are modelled from the specification and
are marked `Modelled from the spec:` in their doc comments.  Strings are
`List Char`, machine integers are `Nat`/`Int`, LDAP and Kerberos calls are
abstracted into explicit outcome parameters.
-/

namespace Adenroll

/-- Result codes from `adutil.h` (`adcli_result`). -/
inductive AdcliResult where
  | success
  | errUnexpected
  | errFail
  | errDirectory
  | errConfig
  | errCredentials
  deriving DecidableEq, Repr

open AdcliResult

/-- Modelled from the spec: `_adcli_str_up` (in `adutil.c`, not under the
provided sources) uppercases a string in place; spec 4.1 says the computer
name is the first label of the FQDN, "uppercased".  ASCII uppercase. -/
def str_up (s : List Char) : List Char :=
  s.map fun c => if 'a' ≤ c ∧ c ≤ 'z' then Char.ofNat (c.toNat - 32) else c

/-- `ensure_computer_name` (adenroll.c lines 103-140): if a computer name is
already set, keep it; otherwise derive it from `host_fqdn` as the label
before the first dot, uppercased.  Fails with `CONFIG` when there is no
FQDN, or when the first dot is absent, first, or last.  Returns the result
code together with the (possibly updated) computer name. -/
def ensure_computer_name (computer_name : Option (List Char))
    (host_fqdn : Option (List Char)) : AdcliResult × Option (List Char) :=
  match computer_name with
  | some n => (success, some n)
  | none =>
    match host_fqdn with
    | none => (errConfig, none)
    | some f =>
      -- dom = strchr (host_fqdn, '.')
      let pre := f.takeWhile (fun c => c ≠ '.')
      let dom := f.dropWhile (fun c => c ≠ '.')
      -- if (dom == NULL || dom == enroll->host_fqdn || dom[1] == '\0')
      if dom = [] ∨ pre = [] ∨ dom = ['.'] then (errConfig, none)
      else (success, some (str_up pre))

/-- `ensure_computer_sam` (adenroll.c lines 142-170): the SAM account name is
rebuilt as `computer_name ++ "$"` (via `asprintf ("%s$", ...)`). -/
def ensure_computer_sam (computer_name : List Char) : List Char :=
  computer_name ++ ['$']

/-- `adcli_enroll_set_computer_name` (adenroll.c lines 1521-1528): stores the
caller's value unchanged and records whether it was explicitly set. -/
def adcli_enroll_set_computer_name (value : Option (List Char)) :
    Option (List Char) × Bool :=
  (value, value.isSome)

/-- `filter_password_chars` (adenroll.c lines 172-190): keep only bytes in
the inclusive range [32,122]; bytes are C `char` values, so modelled as
`Int`. -/
def filter_password_chars (buf : List Int) : List Int :=
  buf.filter fun c => 32 ≤ c ∧ c ≤ 122

/-- The random byte supply consumed by `krb5_c_random_make_octets`: an
infinite stream of `char` values, read off at an advancing cursor. -/
def random_octets (r : Nat → Int) (cursor n : Nat) : List Int :=
  (List.range n).map fun i => r (cursor + i)

/-- Loop body of `generate_host_password` (adenroll.c lines 208-218): while
fewer than `length` bytes are accepted, request `length - at` fresh random
octets, filter them, and append the survivors.  `fuel` bounds the number of
loop iterations (the C loop has no bound; it terminates as soon as enough
in-range bytes arrive). -/
def generate_host_password_go (r : Nat → Int) (cursor : Nat)
    (acc : List Int) (length : Nat) : Nat → Option (List Int)
  | 0 => none
  | fuel + 1 =>
    if acc.length = length then some acc
    else
      let need := length - acc.length
      let kept := filter_password_chars (random_octets r cursor need)
      generate_host_password_go r (cursor + need) (acc ++ kept) length fuel

/-- `generate_host_password` (adenroll.c lines 192-223): rejection-samples
random octets until `length` accepted bytes are collected, then appends the
terminating NUL (`password[length] = '\0'`).  The returned buffer therefore
has `length + 1` bytes. -/
def generate_host_password (r : Nat → Int) (length fuel : Nat) :
    Option (List Int) :=
  (generate_host_password_go r 0 [] length fuel).map fun pw => pw ++ [0]

/-- `ensure_computer_password` (adenroll.c lines 225-251): keep an existing
password; else if a reset was requested derive the well-known reset
password from the computer name (`_adcli_calc_reset_password`, outside the
provided sources, modelled as the abstract function `calcReset`); else
generate a 120-character random password. -/
def ensure_computer_password (password : Option (List Int)) (reset : Bool)
    (computer_name : List Char) (calcReset : List Char → List Int)
    (r : Nat → Int) (fuel : Nat) : AdcliResult × Option (List Int) :=
  match password with
  | some p => (success, some p)
  | none =>
    if reset then (success, some (calcReset computer_name))
    else
      match generate_host_password r 120 fuel with
      | some pw => (success, some pw)
      | none => (errUnexpected, none)

/-! ### Account reconciler (`create_or_update_computer_account`) -/

/-- An LDAP modification as built in `create_or_update_computer_account`:
attribute type plus its list of values. -/
structure LMod where
  mod_type : List Char
  values : List (List Char)
  deriving DecidableEq, Repr

/-- A directory entry, as observed by `ldap_get_values_len`: attribute name
to values; a missing attribute yields `none`. -/
abbrev Entry := List (List Char × List (List Char))

/-- Look up an attribute's values in an entry (`ldap_get_values_len`). -/
def lookupAttr (e : Entry) (ty : List Char) : Option (List (List Char)) :=
  (e.find? fun p => p.1 = ty).map Prod.snd

/-- The LDAP operations the reconciler can issue against the directory. -/
inductive LdapOp where
  | add (dn : List Char) (mods : List LMod)
  | modifyReplace (dn : List Char) (mods : List LMod)
  deriving DecidableEq, Repr

/-- LDAP result codes used by the reconciler. -/
def LDAP_SUCCESS : Nat := 0
def LDAP_NO_SUCH_OBJECT : Nat := 32
def LDAP_INSUFFICIENT_ACCESS : Nat := 50
def LDAP_OBJECT_CLASS_VIOLATION : Nat := 65

/-- `filter_for_necessary_updates` (adenroll.c lines 629-660): keep a mod
unless the search returned an entry, the entry has values for the mod's
attribute, and `_adcli_ldap_have_mod` reports the mod's values as already
present.  `_adcli_ldap_have_mod` lives in `adldap.c` (outside the provided
sources) and is abstracted as the predicate `haveMod`. -/
def filter_for_necessary_updates (haveMod : LMod → List (List Char) → Bool)
    (entry : Option Entry) (mods : List LMod) : List LMod :=
  mods.filter fun m =>
    match entry with
    | none => true
    | some e =>
      match lookupAttr e m.mod_type with
      | none => true
      | some vals => ¬ haveMod m vals

/-- Modelled from the spec: `_adcli_ldap_prune_empty_mods` (in `adldap.c`,
not under the provided sources); spec 4.3 says "Empty-valued mods are pruned
before the add". -/
def prune_empty_mods (mods : List LMod) : List LMod :=
  mods.filter fun m => m.values ≠ []

/-- `create_computer_account` (adenroll.c lines 544-592): prune empty mods,
issue the add, and map the LDAP code (`INSUFFICIENT_ACCESS` and
`OBJECT_CLASS_VIOLATION` → `CREDENTIALS`, other failures → `DIRECTORY`).
`addRc` is the code returned by `ldap_add_ext_s`. -/
def create_computer_account (dn : List Char) (mods : List LMod)
    (addRc : Nat) : AdcliResult × List LdapOp :=
  let pruned := prune_empty_mods mods
  let res :=
    if addRc = LDAP_INSUFFICIENT_ACCESS ∨ addRc = LDAP_OBJECT_CLASS_VIOLATION then
      errCredentials
    else if addRc ≠ LDAP_SUCCESS then errDirectory
    else success
  (res, [LdapOp.add dn pruned])

/-- `modify_computer_account` (adenroll.c lines 594-627): issue a `REPLACE`
modify with the given mods and map the LDAP code.  `modifyRc` is the code
returned by `ldap_modify_ext_s`. -/
def modify_computer_account (dn : List Char) (mods : List LMod)
    (modifyRc : Nat) : AdcliResult × List LdapOp :=
  let res :=
    if modifyRc = LDAP_INSUFFICIENT_ACCESS then errCredentials
    else if modifyRc ≠ LDAP_SUCCESS then errDirectory
    else success
  (res, [LdapOp.modifyReplace dn mods])

/-- The mods assembled at the top of `create_or_update_computer_account`
(adenroll.c lines 666-678): `objectClass=computer`, `sAMAccountName`, and
`userAccountControl=69632`. -/
def default_account_mods (sam : List Char) : List LMod :=
  [⟨"objectClass".data, ["computer".data]⟩,
   ⟨"sAMAccountName".data, [sam]⟩,
   ⟨"userAccountControl".data, ["69632".data]⟩]

/-- Outcome of the base-scope read of `computer_dn` (`ldap_search_ext_s`):
the LDAP code, and when it is `LDAP_SUCCESS` the entry found (or `none`
when the result holds no entry). -/
structure SearchOutcome where
  rc : Nat
  entry : Option Entry

/-- `create_or_update_computer_account` (adenroll.c lines 662-734): read the
computer object at base scope; on `NO_SUCH_OBJECT` create it; on success
either fail with `CONFIG` (no overwrite allowed) or filter the mods down to
those that differ and modify only if any remain; on any other LDAP code
fail with `DIRECTORY`.  Returns the result and the LDAP write operations
issued. -/
def create_or_update_computer_account
    (haveMod : LMod → List (List Char) → Bool) (sam dn : List Char)
    (search : SearchOutcome) (allow_overwrite : Bool)
    (addRc modifyRc : Nat) : AdcliResult × List LdapOp :=
  let mods := default_account_mods sam
  if search.rc = LDAP_NO_SUCH_OBJECT then
    create_computer_account dn mods addRc
  else if search.rc = LDAP_SUCCESS then
    if ¬ allow_overwrite then (errConfig, [])
    else
      let remaining := filter_for_necessary_updates haveMod search.entry mods
      if remaining ≠ [] then modify_computer_account dn remaining modifyRc
      else (success, [])
  else
    (errDirectory, [])

/-! ### Keytab writer with salt discovery -/

/-- A key-derivation salt candidate.  `canonical` models the salt built by
`krb5_principal2salt`, `w2k3` the Windows-2003 machine salt built by
`_adcli_krb5_w2k3_salt` from the computer name, and `empty` the null salt
(`salts[i].data = NULL`). -/
inductive Salt where
  | canonical (principal : List Char)
  | w2k3 (computer_name principal : List Char)
  | empty
  deriving DecidableEq, Repr

/-- `build_principal_salts` (adenroll.c lines 1138-1164): the candidate list
in order: standard kerberos salt, Windows 2003 computer account salt, null
salt. -/
def build_principal_salts (computer_name principal : List Char) : List Salt :=
  [Salt.canonical principal, Salt.w2k3 computer_name principal, Salt.empty]

/-- One keytab entry `(principal, vno, enctype, key)`.  The key is
determined by the password, the salt, and the enctype; the entry records
the salt its key was derived from. -/
structure KeytabEntry where
  principal : List Char
  vno : Nat
  enctype : Nat
  salt : Salt
  deriving DecidableEq, Repr

/-- `match_principal_and_kvno` (adenroll.c lines 1112-1136): an entry is
selected for removal iff its `vno + 1` differs from the target kvno and its
principal equals the principal being processed. -/
def match_principal_and_kvno (kvno : Nat) (principal : List Char)
    (entry : KeytabEntry) : Bool :=
  if entry.vno + 1 = kvno then false
  else entry.principal = principal

/-- Modelled from the spec: `_adcli_krb5_keytab_clear` (in `adkrb5.c`, not
under the provided sources) scans the keytab and removes every entry the
matcher selects (spec 4.6 step 1). -/
def keytab_clear (kt : List KeytabEntry) (sel : KeytabEntry → Bool) :
    List KeytabEntry :=
  kt.filter fun e => ! sel e

/-- Modelled from the spec: `_adcli_krb5_keytab_discover_salt` (in
`adkrb5.c`, not under the provided sources); spec 4.6 step 2: "For each
candidate, for each enabled enctype, derive a key from the new password and
that salt+enctype, and attempt a real AS-REQ as this principal at the
target kvno.  The first salt whose derived key is accepted for any enctype
is selected."  `accepts s e` abstracts whether the AS-REQ with the key
derived from salt `s` and enctype `e` succeeds; the returned value is the
index of the selected salt, or `none` when no candidate is accepted. -/
def keytab_discover_salt (accepts : Salt → Nat → Bool)
    (enctypes : List Nat) : List Salt → Option Nat
  | [] => none
  | s :: rest =>
    if enctypes.any fun e => accepts s e then some 0
    else (keytab_discover_salt accepts enctypes rest).map (· + 1)

/-- Modelled from the spec: `_adcli_krb5_keytab_add_entries` (in `adkrb5.c`,
not under the provided sources); spec 4.6 step 3: "For the selected salt,
for each enabled enctype, derive the key and write a keytab entry
`(principal, kvno, enctype, key)`." -/
def keytab_add_entries (kt : List KeytabEntry) (principal : List Char)
    (kvno : Nat) (enctypes : List Nat) (salt : Salt) : List KeytabEntry :=
  kt ++ enctypes.map fun e => ⟨principal, kvno, e, salt⟩

/-- State threaded through `add_principal_to_keytab`: the keytab contents,
the shared `which_salt` (the C `int *which_salt`, `none` for the initial
`-1`), and a count of how many times salt discovery was invoked. -/
structure KeytabPass where
  keytab : List KeytabEntry
  which_salt : Option Nat
  probes : Nat
  deriving DecidableEq, Repr

/-- `add_principal_to_keytab` (adenroll.c lines 1178-1255): clear stale
entries for this principal, then (only when `which_salt` is still unset)
discover which of the candidate salts the realm accepts — failing with
`DIRECTORY` when none is — and finally add one entry per enabled enctype at
the current kvno, derived with the selected salt. -/
def add_principal_to_keytab (accepts : Salt → Nat → Bool)
    (computer_name : List Char) (kvno : Nat) (enctypes : List Nat)
    (st : KeytabPass) (principal : List Char) : AdcliResult × KeytabPass :=
  let cleared := keytab_clear st.keytab (match_principal_and_kvno kvno principal)
  let salts := build_principal_salts computer_name principal
  match st.which_salt with
  | none =>
    match keytab_discover_salt accepts enctypes salts with
    | none => (errDirectory, ⟨cleared, none, st.probes + 1⟩)
    | some i =>
      (success,
       ⟨keytab_add_entries cleared principal kvno enctypes (salts.getD i Salt.empty),
        some i, st.probes + 1⟩)
  | some i =>
    (success,
     ⟨keytab_add_entries cleared principal kvno enctypes (salts.getD i Salt.empty),
      some i, st.probes⟩)

/-- `update_keytab_for_principals` (adenroll.c lines 1257-1283): process the
keytab principals in order with a shared `which_salt` starting at `-1`
(`none`), stopping at the first failure. -/
def update_keytab_for_principals_go (accepts : Salt → Nat → Bool)
    (computer_name : List Char) (kvno : Nat) (enctypes : List Nat)
    (st : KeytabPass) : List (List Char) → AdcliResult × KeytabPass
  | [] => (success, st)
  | p :: rest =>
    match add_principal_to_keytab accepts computer_name kvno enctypes st p with
    | (AdcliResult.success, st') =>
      update_keytab_for_principals_go accepts computer_name kvno enctypes st' rest
    | (res, st') => (res, st')

/-- Entry point matching the call in `adcli_enroll_join`: `which_salt`
starts at `-1` and no probes have happened yet. -/
def update_keytab_for_principals (accepts : Salt → Nat → Bool)
    (computer_name : List Char) (kvno : Nat) (enctypes : List Nat)
    (kt : List KeytabEntry) (principals : List (List Char)) :
    AdcliResult × KeytabPass :=
  update_keytab_for_principals_go accepts computer_name kvno enctypes
    ⟨kt, none, 0⟩ principals

/-! ### Reading back the account info (kvno) -/

/-- Whitespace as recognised by `strtoul` (C `isspace`). -/
def isSpaceC (c : Char) : Bool :=
  c = ' ' ∨ c = '\t' ∨ c = '\n' ∨ c = '\r' ∨ c = '\x0b' ∨ c = '\x0c'

/-- Value of a string of decimal digits. -/
def digitsVal (l : List Char) : Nat :=
  l.foldl (fun a c => a * 10 + (c.toNat - 48)) 0

/-- C `strtoul (value, &end, 10)`: skip whitespace, an optional sign, then
decimal digits; the value wraps modulo `2 ^ 64` (`unsigned long`), a
leading `'-'` negates in that modulus.  Returns the value and the suffix
`end` points at; when no digits were consumed, `end` is the original
string. -/
def strtoul10 (s : List Char) : Nat × List Char :=
  let s1 := s.dropWhile isSpaceC
  let signed : Bool × List Char :=
    match s1 with
    | '-' :: r => (true, r)
    | '+' :: r => (false, r)
    | _ => (false, s1)
  let digs := signed.2.takeWhile Char.isDigit
  let rest := signed.2.dropWhile Char.isDigit
  if digs = [] then (0, s)
  else
    let v := digitsVal digs % 2 ^ 64
    (if signed.1 then (2 ^ 64 - v) % 2 ^ 64 else v, rest)

/-- `retrieve_computer_account_info` (adenroll.c lines 848-915): read the
account attributes; on search failure return `DIRECTORY`.  When the cached
kvno is 0, parse `msDS-KeyVersionNumber` with `strtoul`: a trailing
non-NUL byte makes the value invalid (`DIRECTORY`, kvno untouched); an
absent attribute leaves kvno at 0 ("Apparently old AD didn't have this
attribute, use zero").  The parsed `unsigned long` is stored into the
`krb5_kvno` (unsigned int) field, hence the final reduction mod `2 ^ 32`.
Returns the result together with the new kvno. -/
def retrieve_computer_account_info (kvno : Nat) (searchRc : Nat)
    (value : Option (List Char)) : AdcliResult × Nat :=
  if searchRc ≠ LDAP_SUCCESS then (errDirectory, kvno)
  else if kvno = 0 then
    match value with
    | some v =>
      let p := strtoul10 v
      if p.2 ≠ [] then (errDirectory, kvno)
      else (success, p.1 % 2 ^ 32)
    | none => (success, 0)
  else (success, kvno)

/-! ### Attribute synchronizer: encryption types -/

/-- The built-in enctype list from `adcli_enroll_get_keytab_enctypes`
(adenroll.c lines 1725-1742): aes256 (18), aes128 (17), des3-sha1 (16),
arcfour (23), des-md5 (3), des-crc (1). -/
def default_enctypes : List Nat := [18, 17, 16, 23, 3, 1]

/-- `adcli_enroll_get_keytab_enctypes`: the context's enctypes when set,
else the built-in default list. -/
def get_keytab_enctypes (keytab_enctypes : Option (List Nat)) : List Nat :=
  keytab_enctypes.getD default_enctypes

/-- `update_and_calculate_enctypes` (adenroll.c lines 917-992).  The
external helpers `_adcli_krb5_parse_enctypes` and
`_adcli_krb5_format_enctypes` (in `adkrb5.c`, not under the provided
sources) are abstracted as `parseEnctypes` and `formatEnctypes`.  When the
caller did not set enctypes explicitly and the account carries a parseable
value, adopt it; then format the effective list — a formatting (encoding)
failure returns `CONFIG`.  If the formatted value already equals the
attribute, or the mod filters away, no modify is issued; otherwise the
modify's LDAP code is mapped as usual.  Returns the result and the
(possibly adopted) context enctypes. -/
def update_and_calculate_enctypes
    (parseEnctypes : List Char → Option (List Nat))
    (formatEnctypes : List Nat → Option (List Char))
    (haveMod : LMod → List (List Char) → Bool) (entry : Option Entry)
    (keytab_enctypes : Option (List Nat)) (enctypes_explicit : Bool)
    (value : Option (List Char)) (modifyRc : Nat) :
    AdcliResult × Option (List Nat) :=
  let kenc :=
    if enctypes_explicit then keytab_enctypes
    else
      match value with
      | none => keytab_enctypes
      | some v =>
        match parseEnctypes v with
        | none => keytab_enctypes
        | some read => some read
  match formatEnctypes (get_keytab_enctypes kenc) with
  | none => (errConfig, kenc)
  | some new_value =>
    if value = some new_value then (success, kenc)
    else
      let mods : List LMod := [⟨"msDS-supportedEncryptionTypes".data, [new_value]⟩]
      let rc :=
        if filter_for_necessary_updates haveMod entry mods = [] then LDAP_SUCCESS
        else modifyRc
      if rc = LDAP_INSUFFICIENT_ACCESS then (errCredentials, kenc)
      else if rc ≠ LDAP_SUCCESS then (errDirectory, kenc)
      else (success, kenc)

/-! ### Enrollment context state, reset and setters -/

/-- The mutable fields of `struct _adcli_enroll` that `enroll_clear_state`
and the public setters touch. -/
structure EnrollState where
  host_fqdn : Option (List Char)
  computer_name : Option (List Char)
  computer_name_explicit : Bool
  computer_sam : Option (List Char)
  computer_principal : Option (List Char)
  computer_password : Option (List Int)
  computer_password_explicit : Bool
  computer_dn : Option (List Char)
  service_principals : Option (List (List Char))
  service_principals_explicit : Bool
  kvno : Nat
  keytab_open : Bool
  keytab_principals : Option (List (List Char))
  computer_attributes : Option Entry
  deriving DecidableEq, Repr

/-- `enroll_clear_state` (adenroll.c lines 1285-1340): free the keytab
principals, close the keytab, clear the SAM name, principal and DN, reset
the kvno and drop the cached attributes — unconditionally; the password and
the service principals are freed only when they were not explicitly set by
the caller. -/
def enroll_clear_state (e : EnrollState) : EnrollState :=
  { e with
    keytab_principals := none
    keytab_open := false
    computer_sam := none
    computer_principal := none
    computer_password :=
      if e.computer_password_explicit then e.computer_password else none
    computer_dn := none
    service_principals :=
      if e.service_principals_explicit then e.service_principals else none
    kvno := 0
    computer_attributes := none }

/-- `adcli_enroll_set_computer_password` (adenroll.c lines 1584-1602):
store a copy of the password and mark it explicit exactly when non-NULL. -/
def adcli_enroll_set_computer_password (e : EnrollState)
    (password : Option (List Int)) : EnrollState :=
  { e with
    computer_password := password
    computer_password_explicit := password.isSome }

/-- `adcli_enroll_set_service_principals` (adenroll.c lines 1652-1659):
store the list and mark it explicit exactly when non-NULL. -/
def adcli_enroll_set_service_principals (e : EnrollState)
    (value : Option (List (List Char))) : EnrollState :=
  { e with
    service_principals := value
    service_principals_explicit := value.isSome }

/-! ### The join pipeline -/

/-- Abstract outcomes of the stages `adcli_enroll_join` sequences.  Each
field is the `adcli_result` the corresponding call would return;
`dn_preset` is whether `computer_dn` was already set (skipping the OU /
container / DN phase). -/
structure JoinStages where
  discover : AdcliResult
  prepare : AdcliResult
  connect : AdcliResult
  dn_preset : Bool
  locate_ou : AdcliResult
  locate_container : AdcliResult
  calc_account : AdcliResult
  create_or_update : AdcliResult
  set_password : AdcliResult
  retrieve_info : AdcliResult
  update_enctypes : AdcliResult
  update_dns : AdcliResult
  update_spn : AdcliResult
  update_keytab : AdcliResult
  deriving DecidableEq, Repr

/-- Events in the order `adcli_enroll_join` performs them. -/
inductive JoinEvent where
  | discover
  | prepare
  | connect
  | locateOu
  | locateContainer
  | calcDn
  | createOrUpdate
  | setPassword
  | retrieveInfo
  | updateEnctypes
  | updateDns
  | updateSpn
  | keytabUpdate
  deriving DecidableEq, Repr

/-- The OU / container / DN phase of `adcli_enroll_join` (adenroll.c lines
1388-1407), run only when `computer_dn` is not preset. -/
def join_locate (s : JoinStages) (t : List JoinEvent) :
    AdcliResult × List JoinEvent :=
  if s.dn_preset then (success, t)
  else
    let t := t ++ [JoinEvent.locateOu]
    if s.locate_ou ≠ success then (s.locate_ou, t) else
    let t := t ++ [JoinEvent.locateContainer]
    if s.locate_container ≠ success then (s.locate_container, t) else
    (s.calc_account, t ++ [JoinEvent.calcDn])

/-- `adcli_enroll_join` (adenroll.c lines 1365-1437): the pipeline, with an
early return at the first failing stage — except the three attribute
updates at lines 1424-1426, whose results the code discards ("We ignore
failures of setting these fields").  Returns the overall result and the
trace of stages that were executed. -/
def adcli_enroll_join (s : JoinStages) (no_keytab : Bool) :
    AdcliResult × List JoinEvent :=
  let t := [JoinEvent.discover]
  if s.discover ≠ success then (s.discover, t) else
  let t := t ++ [JoinEvent.prepare]
  if s.prepare ≠ success then (s.prepare, t) else
  let t := t ++ [JoinEvent.connect]
  if s.connect ≠ success then (s.connect, t) else
  let loc := join_locate s t
  if loc.1 ≠ success then loc else
  let t := loc.2 ++ [JoinEvent.createOrUpdate]
  if s.create_or_update ≠ success then (s.create_or_update, t) else
  let t := t ++ [JoinEvent.setPassword]
  if s.set_password ≠ success then (s.set_password, t) else
  let t := t ++ [JoinEvent.retrieveInfo]
  if s.retrieve_info ≠ success then (s.retrieve_info, t) else
  let t := t ++ [JoinEvent.updateEnctypes, JoinEvent.updateDns, JoinEvent.updateSpn]
  if no_keytab then (success, t) else
  (s.update_keytab, t ++ [JoinEvent.keytabUpdate])

/-- Number of keytab entries for a given `(principal, vno, enctype)`. -/
def countEntries (kt : List KeytabEntry) (p : List Char) (v e : Nat) : Nat :=
  (kt.filter fun en => en.principal = p ∧ en.vno = v ∧ en.enctype = e).length

/-- The per-principal postcondition of a successful keytab update: exactly
one entry per enabled enctype at the target kvno, and every remaining entry
for the principal is at the new kvno or exactly one version behind it. -/
def KeytabOk (enctypes : List Nat) (kvno : Nat) (p : List Char)
    (kt : List KeytabEntry) : Prop :=
  (∀ e ∈ enctypes, countEntries kt p kvno e = 1) ∧
  (∀ en ∈ kt, en.principal = p → en.vno = kvno ∨ en.vno + 1 = kvno)

/-! ## Helper lemmas -/

theorem takeWhile_append_of_all (p : Char → Bool) (l2 : List Char) :
    ∀ l1 : List Char, (∀ x ∈ l1, p x) →
      (l1 ++ l2).takeWhile p = l1 ++ l2.takeWhile p := by
  intro l1
  induction l1 with
  | nil => simp
  | cons a t ih =>
    intro h
    simp only [List.cons_append, List.takeWhile_cons,
      h a (List.mem_cons_self a t)]
    simp [ih fun x hx => h x (List.mem_cons_of_mem _ hx)]

theorem dropWhile_append_of_all (p : Char → Bool) (l2 : List Char) :
    ∀ l1 : List Char, (∀ x ∈ l1, p x) →
      (l1 ++ l2).dropWhile p = l2.dropWhile p := by
  intro l1
  induction l1 with
  | nil => simp
  | cons a t ih =>
    intro h
    simp only [List.cons_append, List.dropWhile_cons,
      h a (List.mem_cons_self a t)]
    simp [ih fun x hx => h x (List.mem_cons_of_mem _ hx)]

/-! ## Claim C6: computer-name derivation from the FQDN -/

/-- C6.  When `computer_name` is not supplied it is derived as the first
label of `host_fqdn`, uppercased; the derivation fails with `CONFIG` when
there is no FQDN at all, when the FQDN has no dot, when the dot is the
first character, and when the first dot is the last character; it succeeds
when a nonempty label precedes the first dot and something follows it. -/
theorem c6_computer_name_derivation :
    (ensure_computer_name none none = (AdcliResult.errConfig, none)) ∧
    (∀ f : List Char, '.' ∉ f →
      ensure_computer_name none (some f) = (AdcliResult.errConfig, none)) ∧
    (∀ f : List Char,
      ensure_computer_name none (some ('.' :: f)) = (AdcliResult.errConfig, none)) ∧
    (∀ pre : List Char, '.' ∉ pre →
      ensure_computer_name none (some (pre ++ ['.'])) = (AdcliResult.errConfig, none)) ∧
    (∀ pre suf : List Char, '.' ∉ pre → pre ≠ [] → suf ≠ [] →
      ensure_computer_name none (some (pre ++ '.' :: suf)) =
        (AdcliResult.success, some (str_up pre))) ∧
    (∀ n f, ensure_computer_name (some n) f = (AdcliResult.success, some n)) := by
  have hunfold : ∀ f : List Char,
      ensure_computer_name none (some f) =
        if f.dropWhile (fun c => decide (c ≠ '.')) = [] ∨
           f.takeWhile (fun c => decide (c ≠ '.')) = [] ∨
           f.dropWhile (fun c => decide (c ≠ '.')) = ['.']
        then (AdcliResult.errConfig, none)
        else (AdcliResult.success,
              some (str_up (f.takeWhile fun c => decide (c ≠ '.')))) :=
    fun f => rfl
  refine ⟨rfl, ?_, ?_, ?_, ?_, fun n f => rfl⟩
  · intro f hf
    have hall : ∀ x ∈ f, (fun c => decide (c ≠ '.')) x = true := by
      intro x hx
      simp only [decide_eq_true_eq]
      exact fun he => hf (he ▸ hx)
    have hdrop : f.dropWhile (fun c => decide (c ≠ '.')) = [] := by
      have := dropWhile_append_of_all (fun c => decide (c ≠ '.')) [] f hall
      simpa using this
    rw [hunfold f, if_pos (Or.inl hdrop)]
  · intro f
    have htake : ('.' :: f).takeWhile (fun c => decide (c ≠ '.')) = [] := by
      rw [List.takeWhile_cons]
      simp
    rw [hunfold ('.' :: f), if_pos (Or.inr (Or.inl htake))]
  · intro pre hpre
    have hall : ∀ x ∈ pre, (fun c => decide (c ≠ '.')) x = true := by
      intro x hx
      simp only [decide_eq_true_eq]
      exact fun he => hpre (he ▸ hx)
    have hdrop : (pre ++ ['.']).dropWhile (fun c => decide (c ≠ '.')) = ['.'] := by
      rw [dropWhile_append_of_all _ _ pre hall, List.dropWhile_cons]
      simp
    rw [hunfold (pre ++ ['.']), if_pos (Or.inr (Or.inr hdrop))]
  · intro pre suf hpre hpre0 hsuf
    have hall : ∀ x ∈ pre, (fun c => decide (c ≠ '.')) x = true := by
      intro x hx
      simp only [decide_eq_true_eq]
      exact fun he => hpre (he ▸ hx)
    have htake : (pre ++ '.' :: suf).takeWhile (fun c => decide (c ≠ '.')) = pre := by
      rw [takeWhile_append_of_all _ _ pre hall, List.takeWhile_cons]
      simp
    have hdrop : (pre ++ '.' :: suf).dropWhile (fun c => decide (c ≠ '.')) = '.' :: suf := by
      rw [dropWhile_append_of_all _ _ pre hall, List.dropWhile_cons]
      simp
    rw [hunfold (pre ++ '.' :: suf), if_neg, htake]
    rw [htake, hdrop]
    push_neg
    refine ⟨by simp, hpre0, ?_⟩
    intro h
    exact hsuf (by simpa using h)

/-- Witness for C6 at the spec's own scenarios: `host01.example.com`
derives `HOST01`, and the dotless `host01` fails with `CONFIG`. -/
theorem c6_witness :
    ensure_computer_name none (some "host01.example.com".data) =
      (AdcliResult.success, some (str_up "host01".data)) ∧
    str_up "host01".data = "HOST01".data ∧
    ensure_computer_name none (some "host01".data) =
      (AdcliResult.errConfig, none) := by
  refine ⟨?_, by decide, ?_⟩
  · have h := c6_computer_name_derivation.2.2.2.2.1 "host01".data
      "example.com".data (by decide) (by decide) (by decide)
    exact h
  · exact c6_computer_name_derivation.2.1 "host01".data (by decide)

/-! ## Claim C4: the SAM account name -/

/-- Counterexample to C4: with an explicitly set lowercase computer name
(`adcli_enroll_set_computer_name` stores the value unchanged),
`ensure_computer_sam` builds `computer_name ++ "$"` without uppercasing,
so `sam_name ≠ upper(computer_name) ++ "$"`. -/
theorem c4_counterexample :
    adcli_enroll_set_computer_name (some "host01".data) =
      (some "host01".data, true) ∧
    ensure_computer_sam "host01".data ≠ str_up "host01".data ++ ['$'] := by
  constructor
  · rfl
  · decide

/-- C4 amended: `sam_name` is always `computer_name ++ "$"` verbatim; when
`computer_name` was derived from the FQDN it equals the uppercased first
label, so only in that case `sam_name = upper(label) ++ "$"`. -/
theorem c4_amended :
    (∀ name : List Char, ensure_computer_sam name = name ++ ['$']) ∧
    (∀ f name, (ensure_computer_name none (some f)).2 = some name →
      ensure_computer_sam name =
        str_up (f.takeWhile fun c => c ≠ '.') ++ ['$']) := by
  constructor
  · intro name
    rfl
  · intro f name h
    simp only [ensure_computer_name] at h
    split at h
    · simp at h
    · simp only [Option.some.injEq] at h
      simp [ensure_computer_sam, ← h]

/-- Witness for C4 amended at the FQDN-derived name of scenario S1. -/
theorem c4_amended_witness :
    ensure_computer_sam "HOST01".data =
      str_up ("host01.example.com".data.takeWhile fun c => c ≠ '.') ++ ['$'] := by
  have h := c4_amended.2 "host01.example.com".data "HOST01".data (by decide)
  exact h

/-! ## Claim C5: password generation -/

theorem generate_host_password_go_spec (r : Nat → Int) :
    ∀ (fuel cursor : Nat) (acc : List Int) (length : Nat) (pw : List Int),
      acc.length ≤ length → (∀ c ∈ acc, 32 ≤ c ∧ c ≤ 122) →
      generate_host_password_go r cursor acc length fuel = some pw →
      pw.length = length ∧ ∀ c ∈ pw, 32 ≤ c ∧ c ≤ 122 := by
  intro fuel
  induction fuel with
  | zero =>
    intro cursor acc length pw _ _ h
    simp [generate_host_password_go] at h
  | succ n ih =>
    intro cursor acc length pw hle hin h
    rw [generate_host_password_go] at h
    by_cases hacc : acc.length = length
    · rw [if_pos hacc] at h
      cases h
      exact ⟨hacc, hin⟩
    · rw [if_neg hacc] at h
      refine ih _ _ _ _ ?_ ?_ h
      · have hkept : (filter_password_chars
            (random_octets r cursor (length - acc.length))).length ≤
            length - acc.length := by
          calc (filter_password_chars
              (random_octets r cursor (length - acc.length))).length
              ≤ (random_octets r cursor (length - acc.length)).length :=
                List.length_filter_le _ _
            _ = length - acc.length := by
                simp [random_octets]
        have := Nat.add_le_add_left hkept acc.length
        simpa [Nat.add_sub_cancel' hle] using this
      · intro c hc
        rcases List.mem_append.mp hc with hc | hc
        · exact hin c hc
        · have := List.of_mem_filter hc
          simpa using this

/-- C5.  `filter_password_chars` keeps exactly the bytes in [32,122]; with
no reset requested a missing password is generated: the resulting buffer is
120 accepted bytes followed by the terminating NUL; with a reset requested
the password is the deterministic function of the computer name. -/
theorem c5_password_generation (name : List Char)
    (calcReset : List Char → List Int) (r : Nat → Int) (fuel : Nat) :
    (∀ buf c, c ∈ filter_password_chars buf ↔ c ∈ buf ∧ (32 ≤ c ∧ c ≤ 122)) ∧
    (ensure_computer_password none true name calcReset r fuel =
      (AdcliResult.success, some (calcReset name))) ∧
    (∀ pw, ensure_computer_password none false name calcReset r fuel =
        (AdcliResult.success, some pw) →
      ∃ core, pw = core ++ [0] ∧ core.length = 120 ∧
        ∀ c ∈ core, 32 ≤ c ∧ c ≤ 122) := by
  refine ⟨?_, rfl, ?_⟩
  · intro buf c
    constructor
    · intro h
      refine ⟨List.mem_of_mem_filter h, ?_⟩
      have := List.of_mem_filter h
      simpa using this
    · intro ⟨hm, hband⟩
      apply List.mem_filter.mpr
      refine ⟨hm, ?_⟩
      simpa using hband
  · intro pw h
    rcases hgo : generate_host_password_go r 0 [] 120 fuel with _ | core
    · rw [show ensure_computer_password none false name calcReset r fuel
          = (AdcliResult.errUnexpected, none) by
            simp [ensure_computer_password, generate_host_password, hgo]] at h
      simp at h
    · rw [show ensure_computer_password none false name calcReset r fuel
          = (AdcliResult.success, some (core ++ [0])) by
            simp [ensure_computer_password, generate_host_password, hgo]] at h
      have hspec := generate_host_password_go_spec r fuel 0 [] 120 core
        (by simp) (by simp) hgo
      simp only [Prod.mk.injEq, Option.some.injEq] at h
      exact ⟨core, h.2.symm, hspec.1, hspec.2⟩

set_option maxRecDepth 8000 in
/-- Witness for C5: with a random stream that always yields byte 65 and
two loop iterations of fuel, the password generated is 120 copies of 65
plus the NUL. -/
theorem c5_witness :
    ∃ core, List.replicate 120 (65 : Int) ++ [0] = core ++ [0] ∧
      core.length = 120 ∧ ∀ c ∈ core, 32 ≤ c ∧ c ≤ 122 := by
  have h := (c5_password_generation "X".data (fun _ => []) (fun _ => 65) 2).2.2
    (List.replicate 120 (65 : Int) ++ [0]) (by decide)
  exact h

/-! ## Claim C10: state reset preserves explicit values -/

/-- C10.  `enroll_clear_state` always clears the SAM name, the principal,
the DN, the kvno, the keytab principals, the cached attributes and the
keytab handle; the password and the service principals survive exactly when
their explicit flags are set — and the public setters set those flags for
non-NULL values, so explicitly set values survive a subsequent reset while
generated/derived ones are freed. -/
theorem c10_clear_state_frame (e : EnrollState) :
    ((enroll_clear_state e).computer_sam = none ∧
     (enroll_clear_state e).computer_principal = none ∧
     (enroll_clear_state e).computer_dn = none ∧
     (enroll_clear_state e).kvno = 0 ∧
     (enroll_clear_state e).keytab_principals = none ∧
     (enroll_clear_state e).computer_attributes = none ∧
     (enroll_clear_state e).keytab_open = false) ∧
    (e.computer_password_explicit = true →
      (enroll_clear_state e).computer_password = e.computer_password) ∧
    (e.computer_password_explicit = false →
      (enroll_clear_state e).computer_password = none) ∧
    (e.service_principals_explicit = true →
      (enroll_clear_state e).service_principals = e.service_principals) ∧
    (e.service_principals_explicit = false →
      (enroll_clear_state e).service_principals = none) ∧
    (∀ p, (enroll_clear_state
        (adcli_enroll_set_computer_password e (some p))).computer_password =
      some p) ∧
    (∀ sp, (enroll_clear_state
        (adcli_enroll_set_service_principals e (some sp))).service_principals =
      some sp) ∧
    ((enroll_clear_state e).host_fqdn = e.host_fqdn ∧
     (enroll_clear_state e).computer_name = e.computer_name) := by
  refine ⟨⟨rfl, rfl, rfl, rfl, rfl, rfl, rfl⟩, ?_, ?_, ?_, ?_, ?_, ?_, rfl, rfl⟩
  · intro h
    simp [enroll_clear_state, h]
  · intro h
    simp [enroll_clear_state, h]
  · intro h
    simp [enroll_clear_state, h]
  · intro h
    simp [enroll_clear_state, h]
  · intro p
    simp [enroll_clear_state, adcli_enroll_set_computer_password]
  · intro sp
    simp [enroll_clear_state, adcli_enroll_set_service_principals]

/-- Witness for C10 at a concrete context with an explicit password and
derived service principals. -/
theorem c10_witness :
    (enroll_clear_state
      ⟨none, none, false, some "S".data, none, some [70], true,
       some "dn".data, some ["HOST/x".data], false, 3, true,
       some ["S".data], none⟩).computer_password = some [70] ∧
    (enroll_clear_state
      ⟨none, none, false, some "S".data, none, some [70], true,
       some "dn".data, some ["HOST/x".data], false, 3, true,
       some ["S".data], none⟩).service_principals = none := by
  have h := c10_clear_state_frame
    ⟨none, none, false, some "S".data, none, some [70], true,
     some "dn".data, some ["HOST/x".data], false, 3, true,
     some ["S".data], none⟩
  exact ⟨h.2.1 rfl, h.2.2.2.2.1 rfl⟩

/-! ## Claim C3: account reconciler decision table -/

/-- C3.  The outcome of `create_or_update_computer_account` on the result
of the base-scope read: `NO_SUCH_OBJECT` leads to an add of the (pruned)
object mods; success without `allow_overwrite` fails `CONFIG` and issues
nothing; success with `allow_overwrite` drops the mods whose existing value
already matches (`filter_for_necessary_updates`) and issues a `REPLACE`
modify only when mods remain — with all mods matching, no LDAP write is
issued and the call succeeds; any other LDAP code fails `DIRECTORY`. -/
theorem c3_reconciler_decision_table
    (haveMod : LMod → List (List Char) → Bool) (sam dn : List Char)
    (entry : Option Entry) (ow : Bool) (addRc modifyRc : Nat) :
    ((create_or_update_computer_account haveMod sam dn
        ⟨LDAP_NO_SUCH_OBJECT, entry⟩ ow addRc modifyRc).2 =
      [LdapOp.add dn (prune_empty_mods (default_account_mods sam))]) ∧
    (create_or_update_computer_account haveMod sam dn
        ⟨LDAP_SUCCESS, entry⟩ false addRc modifyRc =
      (AdcliResult.errConfig, [])) ∧
    (filter_for_necessary_updates haveMod entry (default_account_mods sam) = [] →
      create_or_update_computer_account haveMod sam dn
          ⟨LDAP_SUCCESS, entry⟩ true addRc modifyRc =
        (AdcliResult.success, [])) ∧
    (filter_for_necessary_updates haveMod entry (default_account_mods sam) ≠ [] →
      (create_or_update_computer_account haveMod sam dn
          ⟨LDAP_SUCCESS, entry⟩ true addRc modifyRc).2 =
        [LdapOp.modifyReplace dn
          (filter_for_necessary_updates haveMod entry (default_account_mods sam))]) ∧
    (∀ e, entry = some e →
      (∀ m ∈ default_account_mods sam, ∃ vals,
        lookupAttr e m.mod_type = some vals ∧ haveMod m vals = true) →
      filter_for_necessary_updates haveMod entry (default_account_mods sam) = []) ∧
    (∀ rc, rc ≠ LDAP_NO_SUCH_OBJECT → rc ≠ LDAP_SUCCESS →
      create_or_update_computer_account haveMod sam dn
          ⟨rc, entry⟩ ow addRc modifyRc = (AdcliResult.errDirectory, [])) := by
  refine ⟨?_, ?_, ?_, ?_, ?_, ?_⟩
  · simp [create_or_update_computer_account, create_computer_account,
      LDAP_NO_SUCH_OBJECT]
  · simp [create_or_update_computer_account, LDAP_SUCCESS, LDAP_NO_SUCH_OBJECT]
  · intro hrem
    simp [create_or_update_computer_account, LDAP_SUCCESS, LDAP_NO_SUCH_OBJECT,
      hrem]
  · intro hrem
    simp [create_or_update_computer_account, modify_computer_account,
      LDAP_SUCCESS, LDAP_NO_SUCH_OBJECT, hrem]
  · intro e he hall
    subst he
    simp only [filter_for_necessary_updates]
    rw [List.filter_eq_nil_iff]
    intro m hm
    rcases hall m hm with ⟨vals, hv, hhave⟩
    simp [hv, hhave]
  · intro rc h32 h0
    simp only [create_or_update_computer_account]
    rw [if_neg h32, if_neg h0]

/-- Witness for C3 at a concrete entry whose attributes all match: no
modify is issued; and a dotless-rc (49) read fails `DIRECTORY`. -/
theorem c3_witness :
    create_or_update_computer_account (fun _ _ => true) "S$".data "dn".data
      ⟨LDAP_SUCCESS,
       some [("objectClass".data, ["c".data]),
             ("sAMAccountName".data, ["x".data]),
             ("userAccountControl".data, ["y".data])]⟩ true 0 0 =
      (AdcliResult.success, []) ∧
    create_or_update_computer_account (fun _ _ => true) "S$".data "dn".data
      ⟨49, none⟩ true 0 0 = (AdcliResult.errDirectory, []) := by
  constructor
  · exact (c3_reconciler_decision_table (fun _ _ => true) "S$".data "dn".data
      (some [("objectClass".data, ["c".data]),
             ("sAMAccountName".data, ["x".data]),
             ("userAccountControl".data, ["y".data])]) true 0 0).2.2.1
      (by decide)
  · exact (c3_reconciler_decision_table (fun _ _ => true) "S$".data "dn".data
      none true 0 0).2.2.2.2.2 49 (by decide) (by decide)

/-! ## Claim C7: attribute synchronizer failures and the join -/

/-- Counterexample to C7: `update_and_calculate_enctypes` returns `CONFIG`
on an encoding failure (`_adcli_krb5_format_enctypes` yielding NULL), but
`adcli_enroll_join` discards the results of all three attribute updates
(adenroll.c lines 1423-1426), so a join in which the enctype stage failed
with `CONFIG` still returns `SUCCESS` — the join is not aborted. -/
theorem c7_counterexample :
    (update_and_calculate_enctypes (fun _ => none) (fun _ => none)
        (fun _ _ => false) none none false none LDAP_SUCCESS).1 =
      AdcliResult.errConfig ∧
    (adcli_enroll_join
        ⟨AdcliResult.success, AdcliResult.success, AdcliResult.success, true,
         AdcliResult.success, AdcliResult.success, AdcliResult.success,
         AdcliResult.success, AdcliResult.success, AdcliResult.success,
         AdcliResult.errConfig, AdcliResult.success, AdcliResult.success,
         AdcliResult.success⟩ false).1 = AdcliResult.success := by
  constructor
  · rfl
  · rfl

/-- C7 amended: all three attribute-synchronizer results — the enctype
update included, even when it is the `CONFIG` of an encoding failure — are
ignored by `adcli_enroll_join`: the join's result and trace are identical
for any values of those three stage outcomes. -/
theorem c7_amended (s : JoinStages) (nk : Bool) (a b c : AdcliResult) :
    adcli_enroll_join
      { s with update_enctypes := a, update_dns := b, update_spn := c } nk =
      adcli_enroll_join s nk := by
  cases s
  rfl

/-! ## Claim C8: kvno after enrollment -/

/-- Counterexample to C8: a successful read-back in which the directory
reports no `msDS-KeyVersionNumber` attribute leaves the kvno at 0
("Apparently old AD didn't have this attribute, use zero"), which is not
strictly positive. -/
theorem c8_counterexample :
    retrieve_computer_account_info 0 LDAP_SUCCESS none =
      (AdcliResult.success, 0) ∧
    ¬ 0 < (retrieve_computer_account_info 0 LDAP_SUCCESS none).2 := by
  constructor
  · rfl
  · decide

/-- C8 amended: after a successful read-back starting from the cleared
kvno 0, the kvno equals the parsed `msDS-KeyVersionNumber` value (stored
into an unsigned int) when the attribute is present and parses cleanly,
and 0 when the attribute is absent — so it is not always strictly
positive. -/
theorem c8_amended (v : List Char) (n : Nat) (h : strtoul10 v = (n, [])) :
    retrieve_computer_account_info 0 LDAP_SUCCESS (some v) =
      (AdcliResult.success, n % 2 ^ 32) ∧
    retrieve_computer_account_info 0 LDAP_SUCCESS none =
      (AdcliResult.success, 0) := by
  constructor
  · simp [retrieve_computer_account_info, LDAP_SUCCESS, h]
  · rfl

/-- Witness for C8 amended: the directory value "3" yields kvno 3. -/
theorem c8_amended_witness :
    retrieve_computer_account_info 0 LDAP_SUCCESS (some "3".data) =
      (AdcliResult.success, 3 % 2 ^ 32) := by
  exact (c8_amended "3".data 3 (by decide)).1

/-! ## Claim C9: ordering of password set, read-back and keytab write -/

/-- Every event of the locate phase is either inherited from the incoming
trace or one of the three locate events. -/
theorem join_locate_events (s : JoinStages) (t : List JoinEvent) :
    ∀ ev ∈ (join_locate s t).2, ev ∈ t ∨ ev = JoinEvent.locateOu ∨
      ev = JoinEvent.locateContainer ∨ ev = JoinEvent.calcDn := by
  intro ev hev
  unfold join_locate at hev
  split_ifs at hev <;> simp at hev <;> tauto

/-- C9.  In every execution of `adcli_enroll_join`, the keytab update runs
only when the password set succeeded, and the trace always orders the
password set before the attribute read-back before the keytab update;
likewise the read-back itself runs only after a successful password set. -/
theorem c9_keytab_after_password (s : JoinStages) (nk : Bool) :
    (JoinEvent.keytabUpdate ∈ (adcli_enroll_join s nk).2 →
      s.set_password = AdcliResult.success ∧
      List.Sublist [JoinEvent.setPassword, JoinEvent.retrieveInfo,
        JoinEvent.keytabUpdate] (adcli_enroll_join s nk).2) ∧
    (JoinEvent.retrieveInfo ∈ (adcli_enroll_join s nk).2 →
      s.set_password = AdcliResult.success ∧
      List.Sublist [JoinEvent.setPassword, JoinEvent.retrieveInfo]
        (adcli_enroll_join s nk).2) := by
  have hltr := join_locate_events s
    [JoinEvent.discover, JoinEvent.prepare, JoinEvent.connect]
  rcases hloc : join_locate s
      [JoinEvent.discover, JoinEvent.prepare, JoinEvent.connect] with ⟨lres, ltr⟩
  rw [hloc] at hltr
  simp only at hltr
  have hsafe : JoinEvent.setPassword ∉ ltr ∧ JoinEvent.retrieveInfo ∉ ltr ∧
      JoinEvent.keytabUpdate ∉ ltr := by
    refine ⟨?_, ?_, ?_⟩ <;> intro hev <;>
      rcases hltr _ hev with h | h | h | h <;> simp_all
  by_cases h1 : s.discover = success
  · by_cases h2 : s.prepare = success
    · by_cases h3 : s.connect = success
      · by_cases hl : lres = success
        · by_cases h4 : s.create_or_update = success
          · by_cases h5 : s.set_password = success
            · by_cases h6 : s.retrieve_info = success
              · by_cases h7 : nk = true
                · have hj : adcli_enroll_join s nk =
                      (success, ltr ++ [JoinEvent.createOrUpdate,
                        JoinEvent.setPassword, JoinEvent.retrieveInfo,
                        JoinEvent.updateEnctypes, JoinEvent.updateDns,
                        JoinEvent.updateSpn]) := by
                    simp [adcli_enroll_join, h1, h2, h3, hloc, hl, h4, h5, h6, h7]
                  rw [hj]
                  constructor
                  · intro hmem
                    rcases List.mem_append.mp hmem with hm | hm
                    · exact absurd hm hsafe.2.2
                    · simp at hm
                  · intro hmem
                    exact ⟨h5, List.Sublist.trans (by decide)
                      (List.sublist_append_right ltr _)⟩
                · have hj : adcli_enroll_join s nk =
                      (s.update_keytab, ltr ++ [JoinEvent.createOrUpdate,
                        JoinEvent.setPassword, JoinEvent.retrieveInfo,
                        JoinEvent.updateEnctypes, JoinEvent.updateDns,
                        JoinEvent.updateSpn, JoinEvent.keytabUpdate]) := by
                    simp [adcli_enroll_join, h1, h2, h3, hloc, hl, h4, h5, h6, h7]
                  rw [hj]
                  constructor
                  · intro hmem
                    exact ⟨h5, List.Sublist.trans (by decide)
                      (List.sublist_append_right ltr _)⟩
                  · intro hmem
                    exact ⟨h5, List.Sublist.trans (by decide)
                      (List.sublist_append_right ltr _)⟩
              · have hj : adcli_enroll_join s nk =
                    (s.retrieve_info, ltr ++ [JoinEvent.createOrUpdate,
                      JoinEvent.setPassword, JoinEvent.retrieveInfo]) := by
                  simp [adcli_enroll_join, h1, h2, h3, hloc, hl, h4, h5, h6]
                rw [hj]
                constructor
                · intro hmem
                  rcases List.mem_append.mp hmem with hm | hm
                  · exact absurd hm hsafe.2.2
                  · simp at hm
                · intro hmem
                  exact ⟨h5, List.Sublist.trans (by decide)
                    (List.sublist_append_right ltr _)⟩
            · have hj : adcli_enroll_join s nk =
                  (s.set_password, ltr ++ [JoinEvent.createOrUpdate,
                    JoinEvent.setPassword]) := by
                simp [adcli_enroll_join, h1, h2, h3, hloc, hl, h4, h5]
              rw [hj]
              constructor
              · intro hmem
                rcases List.mem_append.mp hmem with hm | hm
                · exact absurd hm hsafe.2.2
                · simp at hm
              · intro hmem
                rcases List.mem_append.mp hmem with hm | hm
                · exact absurd hm hsafe.2.1
                · simp at hm
          · have hj : adcli_enroll_join s nk =
                (s.create_or_update, ltr ++ [JoinEvent.createOrUpdate]) := by
              simp [adcli_enroll_join, h1, h2, h3, hloc, hl, h4]
            rw [hj]
            constructor
            · intro hmem
              rcases List.mem_append.mp hmem with hm | hm
              · exact absurd hm hsafe.2.2
              · simp at hm
            · intro hmem
              rcases List.mem_append.mp hmem with hm | hm
              · exact absurd hm hsafe.2.1
              · simp at hm
        · have hj : adcli_enroll_join s nk = (lres, ltr) := by
            simp [adcli_enroll_join, h1, h2, h3, hloc, hl]
          rw [hj]
          constructor
          · intro hmem
            exact absurd hmem hsafe.2.2
          · intro hmem
            exact absurd hmem hsafe.2.1
      · have hj : adcli_enroll_join s nk = (s.connect,
            [JoinEvent.discover, JoinEvent.prepare, JoinEvent.connect]) := by
          simp [adcli_enroll_join, h1, h2, h3]
        rw [hj]
        constructor <;> intro hmem <;> simp at hmem
    · have hj : adcli_enroll_join s nk = (s.prepare,
          [JoinEvent.discover, JoinEvent.prepare]) := by
        simp [adcli_enroll_join, h1, h2]
      rw [hj]
      constructor <;> intro hmem <;> simp at hmem
  · have hj : adcli_enroll_join s nk = (s.discover, [JoinEvent.discover]) := by
      simp [adcli_enroll_join, h1]
    rw [hj]
    constructor <;> intro hmem <;> simp at hmem

/-- Witness for C9 at an all-successful join without `NO_KEYTAB`: the
keytab update is in the trace and the ordering holds. -/
theorem c9_witness :
    (⟨AdcliResult.success, AdcliResult.success, AdcliResult.success, true,
      AdcliResult.success, AdcliResult.success, AdcliResult.success,
      AdcliResult.success, AdcliResult.success, AdcliResult.success,
      AdcliResult.success, AdcliResult.success, AdcliResult.success,
      AdcliResult.success⟩ : JoinStages).set_password = AdcliResult.success ∧
    List.Sublist [JoinEvent.setPassword, JoinEvent.retrieveInfo,
      JoinEvent.keytabUpdate]
      (adcli_enroll_join
        ⟨AdcliResult.success, AdcliResult.success, AdcliResult.success, true,
         AdcliResult.success, AdcliResult.success, AdcliResult.success,
         AdcliResult.success, AdcliResult.success, AdcliResult.success,
         AdcliResult.success, AdcliResult.success, AdcliResult.success,
         AdcliResult.success⟩ false).2 :=
  (c9_keytab_after_password
    ⟨AdcliResult.success, AdcliResult.success, AdcliResult.success, true,
     AdcliResult.success, AdcliResult.success, AdcliResult.success,
     AdcliResult.success, AdcliResult.success, AdcliResult.success,
     AdcliResult.success, AdcliResult.success, AdcliResult.success,
     AdcliResult.success⟩ false).1 (by decide)

/-! ## Claim C1: salt discovery -/

/-- `keytab_discover_salt` returns `some i` exactly when candidate `i` is
the first whose derived key is accepted for some enabled enctype. -/
theorem keytab_discover_salt_iff (accepts : Salt → Nat → Bool)
    (enctypes : List Nat) :
    ∀ (salts : List Salt) (i : Nat),
      keytab_discover_salt accepts enctypes salts = some i ↔
        (i < salts.length ∧
         (enctypes.any fun e => accepts (salts.getD i Salt.empty) e) = true ∧
         ∀ j, j < i →
           (enctypes.any fun e => accepts (salts.getD j Salt.empty) e) = false) := by
  intro salts
  induction salts with
  | nil =>
    intro i
    simp [keytab_discover_salt]
  | cons s rest ih =>
    intro i
    by_cases hs : (enctypes.any fun e => accepts s e) = true
    · rw [keytab_discover_salt, if_pos hs]
      cases i with
      | zero =>
        simp only [Option.some.injEq, List.getD_cons_zero]
        constructor
        · intro _
          exact ⟨Nat.succ_pos _, hs, fun j hj => absurd hj (Nat.not_lt_zero j)⟩
        · intro _
          trivial
      | succ k =>
        constructor
        · intro h
          simp at h
        · rintro ⟨-, -, hall⟩
          have h0 := hall 0 (Nat.succ_pos k)
          rw [List.getD_cons_zero] at h0
          rw [hs] at h0
          cases h0
    · rw [keytab_discover_salt, if_neg hs]
      have hsf : (enctypes.any fun e => accepts s e) = false := by
        cases hb : (enctypes.any fun e => accepts s e) with
        | false => rfl
        | true => exact absurd hb hs
      cases i with
      | zero =>
        simp only [Option.map_eq_some']
        constructor
        · rintro ⟨k, -, hk⟩
          cases hk
        · rintro ⟨-, h0, -⟩
          rw [List.getD_cons_zero] at h0
          exact absurd h0 hs
      | succ k =>
        simp only [Option.map_eq_some']
        constructor
        · rintro ⟨a, ha, hak⟩
          have hak' : a = k := Nat.succ_injective hak
          subst hak'
          obtain ⟨hlen, hacc, hall⟩ := (ih a).mp ha
          refine ⟨Nat.succ_lt_succ hlen, ?_, ?_⟩
          · rw [List.getD_cons_succ]
            exact hacc
          · intro j hj
            cases j with
            | zero =>
              rw [List.getD_cons_zero]
              exact hsf
            | succ j' =>
              rw [List.getD_cons_succ]
              exact hall j' (Nat.lt_of_succ_lt_succ hj)
        · rintro ⟨hlen, hacc, hall⟩
          refine ⟨k, (ih k).mpr ⟨Nat.lt_of_succ_lt_succ hlen, ?_, ?_⟩, rfl⟩
          · rw [List.getD_cons_succ] at hacc
            exact hacc
          · intro j hj
            have := hall (j + 1) (Nat.succ_lt_succ hj)
            rw [List.getD_cons_succ] at this
            exact this

/-- Once `which_salt` is fixed, processing any further principals never
fails, never probes again, and keeps the same salt index. -/
theorem update_keytab_go_fixed_salt (accepts : Salt → Nat → Bool)
    (name : List Char) (kvno : Nat) (enctypes : List Nat) :
    ∀ (ps : List (List Char)) (st : KeytabPass) (i : Nat),
      st.which_salt = some i →
      (update_keytab_for_principals_go accepts name kvno enctypes st ps).1 =
        AdcliResult.success ∧
      (update_keytab_for_principals_go accepts name kvno enctypes st ps).2.which_salt =
        some i ∧
      (update_keytab_for_principals_go accepts name kvno enctypes st ps).2.probes =
        st.probes := by
  intro ps
  induction ps with
  | nil =>
    intro st i h
    exact ⟨rfl, h, rfl⟩
  | cons q rest ih =>
    intro st i h
    have hstep : add_principal_to_keytab accepts name kvno enctypes st q =
        (AdcliResult.success,
         ⟨keytab_add_entries
            (keytab_clear st.keytab (match_principal_and_kvno kvno q))
            q kvno enctypes
            ((build_principal_salts name q).getD i Salt.empty),
          some i, st.probes⟩) := by
      rw [add_principal_to_keytab, h]
    rw [update_keytab_for_principals_go, hstep]
    exact ih _ i rfl

/-- C1.  Salt discovery during the keytab update: the candidate list for
each principal is `[canonical, w2k3, empty]` in that order; the discovery
returns the first candidate accepted (per candidate, per enabled enctype)
by the realm; when no candidate is accepted the whole keytab update fails
with `DIRECTORY`; when a candidate is accepted on the first principal, the
whole update succeeds with exactly one probe — the selected index is reused
for every subsequent principal without re-probing. -/
theorem c1_salt_discovery (accepts : Salt → Nat → Bool) (name : List Char)
    (kvno : Nat) (enctypes : List Nat) (kt : List KeytabEntry)
    (p : List Char) (ps : List (List Char)) :
    (build_principal_salts name p =
      [Salt.canonical p, Salt.w2k3 name p, Salt.empty]) ∧
    (∀ i, keytab_discover_salt accepts enctypes (build_principal_salts name p) =
        some i ↔
      (i < 3 ∧
       (enctypes.any fun e =>
         accepts ((build_principal_salts name p).getD i Salt.empty) e) = true ∧
       ∀ j, j < i →
         (enctypes.any fun e =>
           accepts ((build_principal_salts name p).getD j Salt.empty) e) = false)) ∧
    (keytab_discover_salt accepts enctypes (build_principal_salts name p) = none →
      (update_keytab_for_principals accepts name kvno enctypes kt (p :: ps)).1 =
        AdcliResult.errDirectory) ∧
    (∀ i, keytab_discover_salt accepts enctypes (build_principal_salts name p) =
        some i →
      (update_keytab_for_principals accepts name kvno enctypes kt (p :: ps)).1 =
        AdcliResult.success ∧
      (update_keytab_for_principals accepts name kvno enctypes kt
        (p :: ps)).2.which_salt = some i ∧
      (update_keytab_for_principals accepts name kvno enctypes kt
        (p :: ps)).2.probes = 1) := by
  refine ⟨rfl, ?_, ?_, ?_⟩
  · intro i
    exact keytab_discover_salt_iff accepts enctypes (build_principal_salts name p) i
  · intro hnone
    rw [update_keytab_for_principals, update_keytab_for_principals_go]
    have hstep : add_principal_to_keytab accepts name kvno enctypes
        ⟨kt, none, 0⟩ p =
        (AdcliResult.errDirectory,
         ⟨keytab_clear kt (match_principal_and_kvno kvno p), none, 1⟩) := by
      rw [add_principal_to_keytab]
      simp [hnone]
    rw [hstep]
  · intro i hsome
    have hstep : add_principal_to_keytab accepts name kvno enctypes
        ⟨kt, none, 0⟩ p =
        (AdcliResult.success,
         ⟨keytab_add_entries
            (keytab_clear kt (match_principal_and_kvno kvno p))
            p kvno enctypes
            ((build_principal_salts name p).getD i Salt.empty),
          some i, 1⟩) := by
      rw [add_principal_to_keytab]
      simp [hsome]
    rw [update_keytab_for_principals, update_keytab_for_principals_go, hstep]
    exact update_keytab_go_fixed_salt accepts name kvno enctypes ps _ i rfl

/-- Witness for C1, scenario S5: the realm accepts only the W2k3 machine
salt; discovery selects index 1 and the whole update (two principals)
succeeds with a single probe. -/
theorem c1_witness :
    (update_keytab_for_principals
      (fun s _ => match s with | Salt.w2k3 _ _ => true | _ => false)
      "N".data 2 [18, 17] [] ["N$".data, "HOST/N".data]).1 =
      AdcliResult.success ∧
    (update_keytab_for_principals
      (fun s _ => match s with | Salt.w2k3 _ _ => true | _ => false)
      "N".data 2 [18, 17] [] ["N$".data, "HOST/N".data]).2.which_salt = some 1 ∧
    (update_keytab_for_principals
      (fun s _ => match s with | Salt.w2k3 _ _ => true | _ => false)
      "N".data 2 [18, 17] [] ["N$".data, "HOST/N".data]).2.probes = 1 := by
  exact (c1_salt_discovery
    (fun s _ => match s with | Salt.w2k3 _ _ => true | _ => false)
    "N".data 2 [18, 17] [] "N$".data ["HOST/N".data]).2.2.2 1 (by decide)

/-! ## Claim C2: keytab contents after a successful update -/

theorem match_principal_and_kvno_iff (kvno : Nat) (p : List Char)
    (en : KeytabEntry) :
    match_principal_and_kvno kvno p en = true ↔
      (en.principal = p ∧ en.vno + 1 ≠ kvno) := by
  unfold match_principal_and_kvno
  by_cases h : en.vno + 1 = kvno
  · simp [h]
  · simp [h]

theorem mem_keytab_clear (kt : List KeytabEntry) (sel : KeytabEntry → Bool)
    (en : KeytabEntry) :
    en ∈ keytab_clear kt sel ↔ en ∈ kt ∧ sel en = false := by
  simp [keytab_clear, List.mem_filter]

theorem countEntries_cons (en : KeytabEntry) (kt : List KeytabEntry)
    (p : List Char) (v e : Nat) :
    countEntries (en :: kt) p v e =
      (if en.principal = p ∧ en.vno = v ∧ en.enctype = e then 1 else 0) +
        countEntries kt p v e := by
  simp only [countEntries, List.filter_cons]
  by_cases h : en.principal = p ∧ en.vno = v ∧ en.enctype = e
  · simp [h, Nat.add_comm]
  · simp [h]

theorem countEntries_append (a b : List KeytabEntry) (p : List Char)
    (v e : Nat) :
    countEntries (a ++ b) p v e = countEntries a p v e + countEntries b p v e := by
  simp [countEntries, List.filter_append]

theorem countEntries_clear_self (kt : List KeytabEntry) (kvno : Nat)
    (q : List Char) (e : Nat) :
    countEntries (keytab_clear kt (match_principal_and_kvno kvno q)) q kvno e = 0 := by
  simp only [countEntries, List.length_eq_zero, List.filter_eq_nil_iff]
  intro en hen h
  rw [mem_keytab_clear] at hen
  simp only [decide_eq_true_eq] at h
  obtain ⟨hp, hv, -⟩ := h
  have hm := (match_principal_and_kvno_iff kvno q en).mpr
    ⟨hp, by rw [hv]; exact Nat.succ_ne_self kvno⟩
  rw [hen.2] at hm
  cases hm

theorem countEntries_clear_other (kvno : Nat) (q p : List Char) (hne : q ≠ p)
    (v e : Nat) :
    ∀ kt : List KeytabEntry,
      countEntries (keytab_clear kt (match_principal_and_kvno kvno q)) p v e =
        countEntries kt p v e := by
  intro kt
  induction kt with
  | nil => rfl
  | cons en t ih =>
    by_cases hsel : match_principal_and_kvno kvno q en = true
    · have hprin := ((match_principal_and_kvno_iff kvno q en).mp hsel).1
      have hclear : keytab_clear (en :: t) (match_principal_and_kvno kvno q) =
          keytab_clear t (match_principal_and_kvno kvno q) := by
        simp [keytab_clear, List.filter_cons, hsel]
      rw [hclear, ih, countEntries_cons, if_neg ?_]
      · simp
      · intro hcon
        apply hne
        rw [← hprin]
        exact hcon.1
    · have hsel' : match_principal_and_kvno kvno q en = false := by
        cases hb : match_principal_and_kvno kvno q en with
        | false => rfl
        | true => exact absurd hb hsel
      have hclear : keytab_clear (en :: t) (match_principal_and_kvno kvno q) =
          en :: keytab_clear t (match_principal_and_kvno kvno q) := by
        simp [keytab_clear, List.filter_cons, hsel']
      rw [hclear, countEntries_cons, countEntries_cons, ih]

theorem countEntries_new (q : List Char) (kvno : Nat) (salt : Salt) :
    ∀ (ets : List Nat) (e : Nat),
      countEntries (ets.map fun e2 => ⟨q, kvno, e2, salt⟩) q kvno e =
        ets.count e := by
  intro ets e
  induction ets with
  | nil => rfl
  | cons a t ih =>
    rw [List.map_cons, countEntries_cons, ih, List.count_cons]
    by_cases ha : a = e
    · subst ha
      rw [if_pos ⟨rfl, rfl, rfl⟩]
      simp [Nat.add_comm]
    · have hcon : ¬ ((⟨q, kvno, a, salt⟩ : KeytabEntry).principal = q ∧
          (⟨q, kvno, a, salt⟩ : KeytabEntry).vno = kvno ∧
          (⟨q, kvno, a, salt⟩ : KeytabEntry).enctype = e) := by
        intro hcon
        exact ha hcon.2.2
      rw [if_neg hcon]
      have hae : (e == a) = false := by
        simp only [beq_eq_false_iff_ne, ne_eq]
        exact fun h => ha h.symm
      simp [hae]
      exact ha


theorem countEntries_new_other (q p : List Char) (hne : q ≠ p) (kvno : Nat)
    (salt : Salt) (ets : List Nat) (v e : Nat) :
    countEntries (ets.map fun e2 => ⟨q, kvno, e2, salt⟩) p v e = 0 := by
  simp only [countEntries, List.length_eq_zero, List.filter_eq_nil_iff]
  intro en hen h
  simp only [List.mem_map] at hen
  obtain ⟨e2, -, he2⟩ := hen
  subst he2
  simp only [decide_eq_true_eq] at h
  exact hne h.1

/-- After a principal's own pass (clear then add), its entries are exactly
one per enabled enctype at the kvno, and nothing older than `kvno - 1`. -/
theorem keytab_pass_self_ok (enctypes : List Nat) (hnd : enctypes.Nodup)
    (kvno : Nat) (q : List Char) (kt : List KeytabEntry) (salt : Salt) :
    KeytabOk enctypes kvno q
      (keytab_add_entries (keytab_clear kt (match_principal_and_kvno kvno q))
        q kvno enctypes salt) := by
  constructor
  · intro e he
    rw [keytab_add_entries, countEntries_append, countEntries_clear_self,
      countEntries_new]
    rw [Nat.zero_add]
    exact List.count_eq_one_of_mem hnd he
  · intro en hen hp
    rw [keytab_add_entries] at hen
    rcases List.mem_append.mp hen with hm | hm
    · rw [mem_keytab_clear] at hm
      by_cases hv : en.vno + 1 = kvno
      · exact Or.inr hv
      · have := (match_principal_and_kvno_iff kvno q en).mpr ⟨hp, hv⟩
        rw [hm.2] at this
        cases this
    · simp only [List.mem_map] at hm
      obtain ⟨e2, -, he2⟩ := hm
      left
      rw [← he2]

/-- A pass for a different principal does not disturb a principal's
entries. -/
theorem keytab_pass_other_ok (enctypes : List Nat) (kvno : Nat)
    (q p : List Char) (hne : q ≠ p) (kt : List KeytabEntry) (salt : Salt)
    (hok : KeytabOk enctypes kvno p kt) :
    KeytabOk enctypes kvno p
      (keytab_add_entries (keytab_clear kt (match_principal_and_kvno kvno q))
        q kvno enctypes salt) := by
  constructor
  · intro e he
    rw [keytab_add_entries, countEntries_append,
      countEntries_new_other q p hne, Nat.add_zero,
      countEntries_clear_other kvno q p hne]
    exact hok.1 e he
  · intro en hen hp
    rw [keytab_add_entries] at hen
    rcases List.mem_append.mp hen with hm | hm
    · rw [mem_keytab_clear] at hm
      exact hok.2 en hm.1 hp
    · simp only [List.mem_map] at hm
      obtain ⟨e2, -, he2⟩ := hm
      exfalso
      apply hne
      rw [← hp, ← he2]

/-- A successful `add_principal_to_keytab` produces exactly the
clear-then-add keytab shape for some salt, and can only fail when no salt
is discovered. -/
theorem add_principal_shape (accepts : Salt → Nat → Bool) (name : List Char)
    (kvno : Nat) (enctypes : List Nat) (st : KeytabPass) (q : List Char)
    (res : AdcliResult) (st' : KeytabPass)
    (h : add_principal_to_keytab accepts name kvno enctypes st q = (res, st'))
    (hres : res = AdcliResult.success) :
    ∃ salt, st'.keytab =
      keytab_add_entries (keytab_clear st.keytab (match_principal_and_kvno kvno q))
        q kvno enctypes salt := by
  subst hres
  rcases hw : st.which_salt with _ | i
  · rw [add_principal_to_keytab, hw] at h
    rcases hd : keytab_discover_salt accepts enctypes (build_principal_salts name q)
      with _ | i
    · rw [hd] at h
      cases h
    · rw [hd] at h
      injection h with h1 h2
      exact ⟨_, by rw [← h2]⟩
  · rw [add_principal_to_keytab, hw] at h
    injection h with h1 h2
    exact ⟨_, by rw [← h2]⟩

/-- Processing further principals preserves the postcondition of a
principal that is not among them. -/
theorem update_keytab_go_preserve (accepts : Salt → Nat → Bool)
    (name : List Char) (kvno : Nat) (enctypes : List Nat) (p : List Char) :
    ∀ (ps : List (List Char)) (st : KeytabPass) (st' : KeytabPass),
      p ∉ ps → KeytabOk enctypes kvno p st.keytab →
      update_keytab_for_principals_go accepts name kvno enctypes st ps =
        (AdcliResult.success, st') →
      KeytabOk enctypes kvno p st'.keytab := by
  intro ps
  induction ps with
  | nil =>
    intro st st' _ hok h
    injection h with h1 h2
    rw [← h2]
    exact hok
  | cons q rest ih =>
    intro st st' hnot hok h
    have hqne : q ≠ p := fun he => hnot (he ▸ List.mem_cons_self q rest)
    have hnot' : p ∉ rest := fun hm => hnot (List.mem_cons_of_mem q hm)
    rw [update_keytab_for_principals_go] at h
    rcases hstep : add_principal_to_keytab accepts name kvno enctypes st q
      with ⟨res, st1⟩
    rw [hstep] at h
    cases res with
    | success =>
      obtain ⟨salt, hshape⟩ :=
        add_principal_shape accepts name kvno enctypes st q _ st1 hstep rfl
      refine ih st1 st' hnot' ?_ h
      rw [hshape]
      exact keytab_pass_other_ok enctypes kvno q p hqne st.keytab salt hok
    | errUnexpected => exact absurd (congrArg Prod.fst h) (by simp)
    | errFail => exact absurd (congrArg Prod.fst h) (by simp)
    | errDirectory => exact absurd (congrArg Prod.fst h) (by simp)
    | errConfig => exact absurd (congrArg Prod.fst h) (by simp)
    | errCredentials => exact absurd (congrArg Prod.fst h) (by simp)

/-- After a successful run over a list of principals, every principal in
the list satisfies the keytab postcondition. -/
theorem update_keytab_go_ok (accepts : Salt → Nat → Bool) (name : List Char)
    (kvno : Nat) (enctypes : List Nat) (hnd : enctypes.Nodup) :
    ∀ (ps : List (List Char)) (st : KeytabPass) (st' : KeytabPass),
      update_keytab_for_principals_go accepts name kvno enctypes st ps =
        (AdcliResult.success, st') →
      ∀ p ∈ ps, KeytabOk enctypes kvno p st'.keytab := by
  intro ps
  induction ps with
  | nil =>
    intro st st' _ p hp
    cases hp
  | cons q rest ih =>
    intro st st' h p hp
    rw [update_keytab_for_principals_go] at h
    rcases hstep : add_principal_to_keytab accepts name kvno enctypes st q
      with ⟨res, st1⟩
    rw [hstep] at h
    cases res with
    | success =>
      obtain ⟨salt, hshape⟩ :=
        add_principal_shape accepts name kvno enctypes st q _ st1 hstep rfl
      rcases List.mem_cons.mp hp with rfl | hp'
      · by_cases hq : p ∈ rest
        · exact ih st1 st' h p hq
        · refine update_keytab_go_preserve accepts name kvno enctypes p rest
            st1 st' hq ?_ h
          rw [hshape]
          exact keytab_pass_self_ok enctypes hnd kvno p st.keytab salt
      · exact ih st1 st' h p hp'
    | errUnexpected => exact absurd (congrArg Prod.fst h) (by simp)
    | errFail => exact absurd (congrArg Prod.fst h) (by simp)
    | errDirectory => exact absurd (congrArg Prod.fst h) (by simp)
    | errConfig => exact absurd (congrArg Prod.fst h) (by simp)
    | errCredentials => exact absurd (congrArg Prod.fst h) (by simp)

/-- C2.  After a successful keytab update (distinct enabled enctypes), the
keytab holds, for every principal processed, exactly one entry per enabled
enctype at the new kvno, and no entry for that principal at any version
other than `kvno` or `kvno - 1` — in particular none older than `kvno - 1`.
The clearing pass removes exactly the entries whose principal matches and
whose `vno + 1` differs from the kvno. -/
theorem c2_keytab_contents (accepts : Salt → Nat → Bool) (name : List Char)
    (kvno : Nat) (enctypes : List Nat) (kt : List KeytabEntry)
    (principals : List (List Char)) (res : AdcliResult) (st : KeytabPass)
    (h : update_keytab_for_principals accepts name kvno enctypes kt principals =
      (res, st))
    (hres : res = AdcliResult.success) (hnd : enctypes.Nodup) :
    (∀ p ∈ principals,
      (∀ e ∈ enctypes, countEntries st.keytab p kvno e = 1) ∧
      (∀ en ∈ st.keytab, en.principal = p →
        en.vno = kvno ∨ en.vno + 1 = kvno)) ∧
    (∀ p en, match_principal_and_kvno kvno p en = true ↔
      (en.principal = p ∧ en.vno + 1 ≠ kvno)) := by
  subst hres
  constructor
  · intro p hp
    exact update_keytab_go_ok accepts name kvno enctypes hnd principals
      ⟨kt, none, 0⟩ st h p hp
  · intro p en
    exact match_principal_and_kvno_iff kvno p en

/-- Witness for C2 at a concrete run: two enctypes, one principal, a stale
entry at kvno 0 cleared and one at kvno 1 (= kvno - 1) retained. -/
theorem c2_witness :
    (∀ e ∈ [18, 17],
      countEntries [⟨"S$".data, 1, 18, Salt.empty⟩,
        ⟨"S$".data, 2, 18, Salt.canonical "S$".data⟩,
        ⟨"S$".data, 2, 17, Salt.canonical "S$".data⟩] "S$".data 2 e = 1) ∧
    (∀ en ∈ [⟨"S$".data, 1, 18, Salt.empty⟩,
        ⟨"S$".data, 2, 18, Salt.canonical "S$".data⟩,
        ⟨"S$".data, 2, 17, Salt.canonical "S$".data⟩],
      KeytabEntry.principal en = "S$".data →
        KeytabEntry.vno en = 2 ∨ KeytabEntry.vno en + 1 = 2) := by
  have h := c2_keytab_contents (fun _ _ => true) "N".data 2 [18, 17]
    [⟨"S$".data, 0, 18, Salt.empty⟩, ⟨"S$".data, 1, 18, Salt.empty⟩]
    ["S$".data] AdcliResult.success
    ⟨[⟨"S$".data, 1, 18, Salt.empty⟩,
      ⟨"S$".data, 2, 18, Salt.canonical "S$".data⟩,
      ⟨"S$".data, 2, 17, Salt.canonical "S$".data⟩], some 0, 1⟩
    (by decide) rfl (by decide)
  exact h.1 "S$".data (by decide)

end Adenroll
